import Mathlib

/-!
Verification model of the GitHub agent module (`src/vectras/agents/github.py`).

The module is a sequential orchestration of REST calls against one remote
repository: branch creation, file commit (tree building, blob creation,
commit creation, ref update), pull-request creation, a combined workflow,
and local change detection.  We embed it shallowly: every remote response
and every local I/O result is drawn from an explicit oracle (`Env`), a
request issued over the network is recorded as an `Event`, and each
operation of the source is a total Lean function returning its Python
result together with the list of requests it issued.  `none` for an oracle
answer models the request raising (non-2xx via `raise_for_status`, network
failure, or an unparseable body) — in the source every such exception is
caught by the surrounding `try`/`except`.  Base64 transport encoding of
blob content is not modelled (it is an injective recoding of the bytes);
local project-directory discovery is folded into the file-read oracle.
-/

/-- One entry of a git tree, as the dictionaries the source builds and
receives: `path`, `mode`, `type` ("blob", "tree", ...), `sha`. -/
structure TreeEntry where
  path : String
  mode : String
  type : String
  sha : String
deriving DecidableEq

/-- Body of a created pull request, as read by the source
(`number`, `title`, `html_url`). -/
structure PullData where
  number : Nat
  title : String
  htmlUrl : String
deriving DecidableEq

/-- Repository metadata read by `get_repository_status`. -/
structure RepoData where
  fullName : String
  description : Option String
  defaultBranch : String
  stargazersCount : Nat
  forksCount : Nat
  openIssuesCount : Nat
deriving DecidableEq

/-- One pull request of the recent-PR listing read by
`get_repository_status`. -/
structure PrInfo where
  number : Nat
  title : String
  state : String
deriving DecidableEq

/-- Outcome of the two GETs of `get_repository_status`, matching its
`except` branches: success, `httpx.HTTPStatusError` with a status code,
`httpx.RequestError`, or any other exception. -/
inductive RepoStatusOutcome where
  | ok (repo : RepoData) (prs : List PrInfo)
  | httpStatusError (status : Nat) (text : String)
  | requestError (msg : String)
  | otherError (msg : String)
deriving DecidableEq

/-- A network request issued by the module.  `deleteRef` is never emitted by
any operation (the source has no ref-deletion call): its absence from every
trace is what "no rollback" means. -/
inductive Event where
  | getRef (branch : String)
  | postRef (ref sha : String)
  | getCommit (sha : String)
  | getTree (sha : String)
  | postBlob (content : String)
  | postTree (entries : List TreeEntry)
  | postCommit (message tree parent : String)
  | patchRef (branch sha : String) (force : Bool)
  | postPull (head title body : String)
  | deleteRef (ref : String)
  | getBranches
  | getRepo
  | getPulls
deriving DecidableEq

/-- `true` exactly on ref-update (`PATCH /git/refs/...`) requests. -/
def Event.isPatchRef : Event → Bool
  | .patchRef _ _ _ => true
  | _ => false

/-- `true` exactly on pull-request-creation requests. -/
def Event.isPostPull : Event → Bool
  | .postPull _ _ _ => true
  | _ => false

/-- `true` exactly on ref-deletion requests (never issued by the source). -/
def Event.isDeleteRef : Event → Bool
  | .deleteRef _ => true
  | _ => false

/-- `true` exactly on ref-creation (`POST /git/refs`) requests. -/
def Event.isPostRef : Event → Bool
  | .postRef _ _ => true
  | _ => false

/-- The oracle supplying every remote response and every local I/O result.
For the per-file loop of `_create_tree_with_changes`, `readFile` and
`createBlobResp` additionally take the iteration index, so that two
occurrences of the same path model two separate reads of a possibly
changing file and two separate blob creations. -/
structure Env where
  /-- `GET /git/ref(s)/heads/b`: `some sha` on success, `none` when the call
  raises (non-2xx, network failure, missing json field). -/
  resolveRef : String → Option String
  /-- `POST /git/refs` with `(ref, sha)`: the HTTP status, `none` on a
  network error. -/
  createRefResp : String → String → Option Nat
  /-- `GET /git/commits/s`: the commit's tree sha. -/
  getCommitTree : String → Option String
  /-- `GET /git/trees/s?recursive=1`: the items of the base tree. -/
  getTreeItems : String → Option (List TreeEntry)
  /-- Local read of the i-th supplied file path: its bytes, `none` when
  `open`/`read` raises. -/
  readFile : Nat → String → Option String
  /-- `POST /git/blobs` at iteration i: `(status, sha of the body)`,
  `none` on a network error. -/
  createBlobResp : Nat → String → Option (Nat × String)
  /-- `POST /git/trees` with the entry list: `(status, new tree sha)`. -/
  createTreeResp : List TreeEntry → Option (Nat × String)
  /-- `POST /git/commits` with `(message, tree, parent)`:
  `(status, new commit sha)`. -/
  createCommitResp : String → String → String → Option (Nat × String)
  /-- `PATCH /git/refs/heads/b` with `(branch, sha, force)`: the HTTP
  status, `none` on a network error. -/
  updateRefResp : String → String → Bool → Option Nat
  /-- `POST /pulls` with `(head, title, body)`: `(status, PR body)`. -/
  createPullResp : String → String → String → Option (Nat × PullData)
  /-- `GET /branches`: the branch names, `none` when the call raises. -/
  branchesResp : Option (List String)
  /-- Outcome of the repository-status GETs. -/
  repoStatus : RepoStatusOutcome
  /-- `git status --porcelain`: `(returncode, stdout, stderr)`, `none` when
  `subprocess.run` raises. -/
  gitStatusResp : Option (Nat × String × String)
  /-- `os.path.exists` for `validate_files_exist`. -/
  pathExists : String → Bool
  /-- `datetime.now().strftime('%Y%m%d-%H%M%S')`. -/
  timestampStr : String
  /-- `str(e)` of a caught exception, for messages that interpolate it. -/
  excText : String

/-- The process-wide integration object: present exactly when a token was
configured.  Its fields only feed URLs and headers, which the `Env` oracle
abstracts. -/
structure GitHubIntegration where
  token : String
  repoOwner : String
  repoName : String

/-- The message every integration-backed tool returns when the global
integration is `None`. -/
def notConfiguredMsg : String :=
  "❌ GitHub integration not configured. Please set GITHUB_TOKEN environment variable."

/-- `GitHubIntegration.create_branch`: resolve the base branch head, then
create the new ref; `true` only on a 201 creation response. -/
def createBranchM (env : Env) (branchName : String) (baseBranch : String) :
    Bool × List Event :=
  match env.resolveRef baseBranch with
  | none => (false, [Event.getRef baseBranch])
  | some sha =>
    match env.createRefResp ("refs/heads/" ++ branchName) sha with
    | none => (false, [Event.getRef baseBranch, Event.postRef ("refs/heads/" ++ branchName) sha])
    | some status =>
      (status == 201, [Event.getRef baseBranch, Event.postRef ("refs/heads/" ++ branchName) sha])

/-- The filter-and-append of `_create_tree_with_changes`: drop every entry
whose path equals `path`, then append a fresh regular-file blob entry. -/
def upsertEntry (entries : List TreeEntry) (path sha : String) : List TreeEntry :=
  (entries.filter (fun e => e.path != path)) ++ [⟨path, "100644", "blob", sha⟩]

/-- Carry-over of the base tree: keep only blob-type items, re-emitted as
blob entries. -/
def baseEntries (items : List TreeEntry) : List TreeEntry :=
  (items.filter (fun it => it.type == "blob")).map
    (fun it => ⟨it.path, it.mode, "blob", it.sha⟩)

/-- Pair each element of a list with its position, starting at `n`: the
iteration index of the per-file loop. -/
def withIdx : Nat → List String → List (Nat × String)
  | _, [] => []
  | n, f :: rest => (n, f) :: withIdx (n + 1) rest

/-- The per-file loop of `_create_tree_with_changes`: read each supplied
path, create a blob for it, and on a 201 replace-or-append its tree entry;
a failed read is skipped silently, a non-201 blob response leaves the
entries unchanged.  Returns the final entry list and the blob requests
issued. -/
def processFiles (env : Env) : List TreeEntry → List (Nat × String) → List TreeEntry × List Event
  | entries, [] => (entries, [])
  | entries, (i, f) :: rest =>
    match env.readFile i f with
    | none => processFiles env entries rest
    | some content =>
      match env.createBlobResp i content with
      | none =>
        ((processFiles env entries rest).1,
         Event.postBlob content :: (processFiles env entries rest).2)
      | some (st, blobSha) =>
        if st == 201 then
          ((processFiles env (upsertEntry entries f blobSha) rest).1,
           Event.postBlob content :: (processFiles env (upsertEntry entries f blobSha) rest).2)
        else
          ((processFiles env entries rest).1,
           Event.postBlob content :: (processFiles env entries rest).2)

/-- `GitHubIntegration._create_tree_with_changes`: fetch the base tree
recursively, overlay the supplied files, submit the entry list as one tree
creation; `some` new tree sha only on a 201. -/
def createTreeWithChanges (env : Env) (baseTreeSha : String) (files : List String) :
    Option String × List Event :=
  match env.getTreeItems baseTreeSha with
  | none => (none, [Event.getTree baseTreeSha])
  | some items =>
    match processFiles env (baseEntries items) (withIdx 0 files) with
    | (entries, evs) =>
      match env.createTreeResp entries with
      | none => (none, Event.getTree baseTreeSha :: (evs ++ [Event.postTree entries]))
      | some (st, newTreeSha) =>
        (if st == 201 then some newTreeSha else none,
         Event.getTree baseTreeSha :: (evs ++ [Event.postTree entries]))

/-- The entry list `_create_tree_with_changes` submits to the tree-creation
call, given the items of the base tree. -/
def submittedEntries (env : Env) (items : List TreeEntry) (files : List String) :
    List TreeEntry :=
  (processFiles env (baseEntries items) (withIdx 0 files)).1

/-- `GitHubIntegration.commit_files`: resolve the branch head, read its
tree, build the new tree, create the commit (201 required), then move the
branch ref to it (200 required); every failure returns `false`. -/
def commitFilesM (env : Env) (branchName : String) (files : List String)
    (commitMessage : String) : Bool × List Event :=
  match env.resolveRef branchName with
  | none => (false, [Event.getRef branchName])
  | some currentCommitSha =>
    match env.getCommitTree currentCommitSha with
    | none => (false, [Event.getRef branchName, Event.getCommit currentCommitSha])
    | some currentTreeSha =>
      match createTreeWithChanges env currentTreeSha files with
      | (none, treeEvs) =>
        (false, Event.getRef branchName :: Event.getCommit currentCommitSha :: treeEvs)
      | (some newTreeSha, treeEvs) =>
        match env.createCommitResp commitMessage newTreeSha currentCommitSha with
        | none =>
          (false, Event.getRef branchName :: Event.getCommit currentCommitSha ::
            (treeEvs ++ [Event.postCommit commitMessage newTreeSha currentCommitSha]))
        | some (st, newCommitSha) =>
          if st == 201 then
            match env.updateRefResp branchName newCommitSha false with
            | none =>
              (false, Event.getRef branchName :: Event.getCommit currentCommitSha ::
                (treeEvs ++ [Event.postCommit commitMessage newTreeSha currentCommitSha,
                  Event.patchRef branchName newCommitSha false]))
            | some ust =>
              (ust == 200, Event.getRef branchName :: Event.getCommit currentCommitSha ::
                (treeEvs ++ [Event.postCommit commitMessage newTreeSha currentCommitSha,
                  Event.patchRef branchName newCommitSha false]))
          else
            (false, Event.getRef branchName :: Event.getCommit currentCommitSha ::
              (treeEvs ++ [Event.postCommit commitMessage newTreeSha currentCommitSha]))

/-- `GitHubIntegration.create_pull_request`: `some` PR body only on a 201
response. -/
def createPullRequestM (env : Env) (branchName title body : String) :
    Option PullData × List Event :=
  match env.createPullResp branchName title body with
  | none => (none, [Event.postPull branchName title body])
  | some (st, pr) =>
    (if st == 201 then some pr else none, [Event.postPull branchName title body])

/-- The `create_branch` tool: not-configured short-circuit, then the
integration method with a formatted result. -/
def createBranchTool (integ : Option GitHubIntegration) (env : Env)
    (branchName baseBranch : String) : String × List Event :=
  match integ with
  | none => (notConfiguredMsg, [])
  | some _ =>
    match createBranchM env branchName baseBranch with
    | (true, evs) =>
      ("✅ Successfully created branch '" ++ branchName ++ "' from '" ++ baseBranch ++ "'", evs)
    | (false, evs) => ("❌ Failed to create branch '" ++ branchName ++ "'", evs)

/-- The `commit_files` tool: on success it reports the length of the
supplied file list, whatever the tree build did with each file. -/
def commitFilesTool (integ : Option GitHubIntegration) (env : Env)
    (branchName : String) (files : List String) (commitMessage : String) :
    String × List Event :=
  match integ with
  | none => (notConfiguredMsg, [])
  | some _ =>
    match commitFilesM env branchName files commitMessage with
    | (true, evs) =>
      ("✅ Successfully committed " ++ toString files.length ++ " files to branch '"
        ++ branchName ++ "'", evs)
    | (false, evs) => ("❌ Failed to commit files to branch '" ++ branchName ++ "'", evs)

/-- The `create_pull_request` tool. -/
def createPullRequestTool (integ : Option GitHubIntegration) (env : Env)
    (branchName title body : String) : String × List Event :=
  match integ with
  | none => (notConfiguredMsg, [])
  | some _ =>
    match createPullRequestM env branchName title body with
    | (some pr, evs) =>
      ("✅ Successfully created PR #" ++ toString pr.number ++ ": " ++ pr.title
        ++ "\n🔗 URL: " ++ pr.htmlUrl, evs)
    | (none, evs) => ("❌ Failed to create PR from branch '" ++ branchName ++ "'", evs)

/-- The `create_complete_pr_workflow` tool: branch creation (from "main"),
then commit, then PR, stopping at the first failing step with its failure
string; no issued request is ever compensated.  The source's surrounding
`except` branch is unreachable in this total model (each step already
converts its failures to `false`/`None`). -/
def createCompletePrWorkflow (integ : Option GitHubIntegration) (env : Env)
    (branchName : String) (files : List String)
    (commitMessage prTitle prBody : String) : String × List Event :=
  match integ with
  | none => (notConfiguredMsg, [])
  | some _ =>
    match createBranchM env branchName "main" with
    | (false, evs1) => ("❌ Failed to create branch '" ++ branchName ++ "'", evs1)
    | (true, evs1) =>
      match commitFilesM env branchName files commitMessage with
      | (false, evs2) =>
        ("❌ Failed to commit files to branch '" ++ branchName ++ "'", evs1 ++ evs2)
      | (true, evs2) =>
        match createPullRequestM env branchName prTitle prBody with
        | (some pr, evs3) =>
          ("✅ Complete PR workflow successful!\n🔗 PR #" ++ toString pr.number ++ ": "
            ++ pr.title ++ "\n🌐 URL: " ++ pr.htmlUrl, evs1 ++ evs2 ++ evs3)
        | (none, evs3) =>
          ("❌ Failed to create PR from branch '" ++ branchName ++ "'", evs1 ++ evs2 ++ evs3)

/-- The `list_branches` tool. -/
def listBranchesTool (integ : Option GitHubIntegration) (env : Env) :
    String × List Event :=
  match integ with
  | none => (notConfiguredMsg, [])
  | some _ =>
    match env.branchesResp with
    | none => ("❌ Error listing branches: " ++ env.excText, [Event.getBranches])
    | some names =>
      ("📋 Available branches:\n"
        ++ String.intercalate "\n" (names.map (fun n => "- " ++ n)), [Event.getBranches])

/-- The `validate_files_exist` tool.  It never consults the integration
object and touches only the local filesystem, so it issues no network
request. -/
def validateFilesExistTool (env : Env) (files : List String) : String × List Event :=
  let missingFiles := files.filter (fun f => !env.pathExists f)
  let existingFiles := files.filter (fun f => env.pathExists f)
  (if !missingFiles.isEmpty then
      "❌ Some files do not exist: " ++ String.intercalate ", " missingFiles
        ++ "\n✅ Existing files: " ++ String.intercalate ", " existingFiles
    else "✅ All files exist: " ++ String.intercalate ", " existingFiles,
   [])

/-- The `get_repository_status` tool.  For the error outcomes only the
first GET is certain to have been issued, so the trace records that one. -/
def getRepositoryStatusTool (integ : Option GitHubIntegration) (env : Env) :
    String × List Event :=
  match integ with
  | none => (notConfiguredMsg, [])
  | some _ =>
    match env.repoStatus with
    | .ok repo prs =>
      let base := "## GitHub Repository Status\n\n**Repository:** " ++ repo.fullName
        ++ "\n**Description:** " ++ repo.description.getD "No description"
        ++ "\n**Default Branch:** " ++ repo.defaultBranch
        ++ "\n**Stars:** " ++ toString repo.stargazersCount
        ++ "\n**Forks:** " ++ toString repo.forksCount
        ++ "\n**Open Issues:** " ++ toString repo.openIssuesCount
        ++ "\n\n**Recent Pull Requests:**"
      (if !prs.isEmpty then
          (prs.take 3).foldl
            (fun acc pr => acc ++ "\n- #" ++ toString pr.number ++ ": " ++ pr.title
              ++ " (" ++ pr.state ++ ")") base
        else base ++ "\n- No pull requests found",
       [Event.getRepo, Event.getPulls])
    | .httpStatusError 404 _ =>
      ("❌ Repository not found. Please check if the repository exists and you have access to it.",
       [Event.getRepo])
    | .httpStatusError 401 _ =>
      ("❌ Authentication failed. Please check your GitHub token.", [Event.getRepo])
    | .httpStatusError 403 _ =>
      ("❌ Access forbidden. Please check your GitHub token permissions.", [Event.getRepo])
    | .httpStatusError st text =>
      ("❌ HTTP error " ++ toString st ++ ": " ++ text, [Event.getRepo])
    | .requestError msg => ("❌ Network error: " ++ msg, [Event.getRepo])
    | .otherError msg => ("❌ Error getting repository status: " ++ msg, [Event.getRepo])

/-- `true` on the characters Python's `str.strip` removes that can occur in
`git status --porcelain` output. -/
def isPyWS (c : Char) : Bool :=
  c == ' ' || c == '\t' || c == '\n' || c == '\r'

/-- Python `s.strip()` over the character list. -/
def pyStripList (l : List Char) : List Char :=
  ((l.dropWhile isPyWS).reverse.dropWhile isPyWS).reverse

/-- Python `s.split('\n')` over the character list (helper carrying the
current piece, reversed). -/
def splitNlAux : List Char → List Char → List (List Char)
  | acc, [] => [acc.reverse]
  | acc, c :: rest =>
    if c == '\n' then acc.reverse :: splitNlAux [] rest else splitNlAux (c :: acc) rest

/-- Python `s.split('\n')` over the character list. -/
def splitNl (l : List Char) : List (List Char) :=
  splitNlAux [] l

/-- Python list/string prefix test: `listIsPre p l` is `l.startswith(p)`. -/
def listIsPre : List Char → List Char → Bool
  | [], _ => true
  | _ :: _, [] => false
  | a :: as, b :: bs => a == b && listIsPre as bs

/-- Python `sub in s` over character lists. -/
def containsSub : List Char → List Char → Bool
  | [], sub => sub.isEmpty
  | c :: rest, sub => listIsPre sub (c :: rest) || containsSub rest sub

/-- Python `sub in s.lower()` for strings. -/
def pyInLower (sub s : String) : Bool :=
  containsSub (s.data.map Char.toLower) sub.data

/-- One line of porcelain output qualifies when `line[:2].strip()` is `M`,
`A` or `D`, or the line starts with `??`. -/
def qualifiesLine (line : List Char) : Bool :=
  let status := pyStripList (line.take 2)
  status == ['M'] || status == ['A'] || status == ['D'] || listIsPre ['?', '?'] line

/-- The changed-file list `get_current_changes` extracts from the porcelain
stdout: `stdout.strip().split('\n')`, keep the qualifying non-blank lines,
take `line[3:]` of each.  Returns `[]` exactly when the source reports "No
changes detected" (empty stdout, blank first line, or no qualifying
line). -/
def changedFilesOf (stdout : String) : List String :=
  let stripped := pyStripList stdout.data
  let files := if !stripped.isEmpty then splitNl stripped else []
  match files with
  | [] => []
  | first :: _ =>
    if first.isEmpty then []
    else
      ((files.filter (fun l => !(pyStripList l).isEmpty && qualifiesLine l)).map
        (fun l => String.mk (l.drop 3)))

/-- The branch-name / commit-message / PR-title heuristic of
`get_current_changes`, by substring matching on lowercased filenames. -/
def inferPr (changedFiles : List String) (timestamp : String) :
    String × String × String :=
  if changedFiles.any (fun f => pyInLower "lint" f || pyInLower "format" f) then
    ("fix-linting-" ++ timestamp, "fix(linting): auto-fix linting issues",
     "Auto-fix linting issues")
  else if changedFiles.any (fun f => pyInLower "test" f) then
    ("feat-testing-" ++ timestamp, "feat(testing): add test improvements",
     "Add test improvements")
  else if changedFiles.any (fun f => pyInLower "doc" f || pyInLower "readme" f) then
    ("docs-update-" ++ timestamp, "docs: update documentation", "Update documentation")
  else ("fix-changes-" ++ timestamp, "fix: resolve issues", "Fix issues")

/-- The report `get_current_changes` renders when changes were found. -/
def changesReport (branch : String) (changed : List String)
    (commitMsg prTitle : String) : String :=
  "Current project changes detected:\n\nBranch: " ++ branch
    ++ "\nChanged files: " ++ String.intercalate ", " changed
    ++ "\nCommit message: " ++ commitMsg
    ++ "\nPR title: " ++ prTitle
    ++ "\n\nReady to create PR with these details."

/-- The `get_current_changes` tool.  The local config query and the
`git status` subprocess are local I/O, not GitHub API requests, so the
trace stays empty; the two "No changes detected" returns of the source
(blank listing, no qualifying line) produce the same message and are both
reached exactly when `changedFilesOf` is empty. -/
def getCurrentChangesTool (integ : Option GitHubIntegration) (env : Env) :
    String × List Event :=
  match integ with
  | none => (notConfiguredMsg, [])
  | some _ =>
    match env.gitStatusResp with
    | none => ("❌ Error checking current changes: " ++ env.excText, [])
    | some (rc, stdout, stderr) =>
      if rc == 0 then
        match changedFilesOf stdout with
        | [] => ("ℹ️ No changes detected in current project.", [])
        | changed =>
          match inferPr changed env.timestampStr with
          | (branch, commitMsg, prTitle) =>
            (changesReport branch changed commitMsg prTitle, [])
      else ("❌ Could not check git status: " ++ stderr, [])

/-- Outcome of the i-th read-and-create-blob step of the per-file loop for
path `f`: `some sha` exactly when the local read succeeded and the blob
creation returned 201 — the only case in which the loop touches the entry
list. -/
def blobAt (env : Env) (i : Nat) (f : String) : Option String :=
  match env.readFile i f with
  | none => none
  | some content =>
    match env.createBlobResp i content with
    | none => none
    | some (st, sha) => if st == 201 then some sha else none

/-- The blob sha of the last successful occurrence of path `p` in the
indexed file list: later occurrences win, occurrences whose read or blob
creation failed are passed over. -/
def lastSuccess (env : Env) (p : String) : List (Nat × String) → Option String
  | [] => none
  | (i, f) :: rest =>
    match lastSuccess env p rest with
    | some sha => some sha
    | none => if f = p then blobAt env i f else none

/-- The index of the last occurrence of path `p` in the indexed file
list. -/
def lastIdx (p : String) : List (Nat × String) → Option Nat
  | [] => none
  | (i, f) :: rest =>
    match lastIdx p rest with
    | some j => some j
    | none => if f = p then some i else none

/-- The entries of a list whose path is `p`. -/
def entriesFor (p : String) (es : List TreeEntry) : List TreeEntry :=
  es.filter (fun e => e.path == p)

/-- A default oracle: every call fails.  Witness environments override the
calls their scenario needs. -/
def envBase : Env where
  resolveRef := fun _ => none
  createRefResp := fun _ _ => none
  getCommitTree := fun _ => none
  getTreeItems := fun _ => none
  readFile := fun _ _ => none
  createBlobResp := fun _ _ => none
  createTreeResp := fun _ => none
  createCommitResp := fun _ _ _ => none
  updateRefResp := fun _ _ _ => none
  createPullResp := fun _ _ _ => none
  branchesResp := none
  repoStatus := .otherError "boom"
  gitStatusResp := none
  pathExists := fun _ => false
  timestampStr := "20260101-000000"
  excText := "boom"

/-- A sample integration object (token, owner, repository). -/
def integW : GitHubIntegration where
  token := "tok"
  repoOwner := "maximilien"
  repoName := "vectras-ai"

/-- Base-tree items with one file blob and one directory sub-tree. -/
def itemsW : List TreeEntry :=
  [⟨"keep.txt", "100644", "blob", "sha0"⟩, ⟨"docs", "040000", "tree", "shaT"⟩]

/-- Oracle for the tree-builder scenarios: every read and blob creation
succeeds, the blob sha records the iteration index, and the remote accepts
the tree. -/
def envTree : Env :=
  { envBase with
    getTreeItems := fun _ => some itemsW
    readFile := fun _ _ => some "bytes"
    createBlobResp := fun i _ => some (201, "blob" ++ toString i)
    createTreeResp := fun _ => some (201, "tree1") }

/-- Oracle under which every remote call of `commit_files` succeeds while
the single supplied file is unreadable locally. -/
def envAllOk : Env :=
  { envBase with
    resolveRef := fun _ => some "head0"
    getCommitTree := fun _ => some "tree0"
    getTreeItems := fun _ => some itemsW
    createTreeResp := fun _ => some (201, "nt")
    createCommitResp := fun _ _ _ => some (201, "nc")
    updateRefResp := fun _ _ _ => some 200 }

/-- Like `envAllOk` but the remote rejects the ref update (as for a
non-fast-forward) with a 422. -/
def envRefReject : Env :=
  { envAllOk with updateRefResp := fun _ _ _ => some 422 }

/-- Oracle under which branch creation succeeds (the base branch "main"
resolves, the ref creation returns 201) while resolving any other branch
fails, so the commit step fails. -/
def envBranchOnly : Env :=
  { envBase with
    resolveRef := fun s => if s == "main" then some "abc123" else none
    createRefResp := fun _ _ => some 201 }

/-- Oracle whose ref creation is rejected with a 404. -/
def envRefCreate404 : Env :=
  { envBase with
    resolveRef := fun _ => some "abc123"
    createRefResp := fun _ _ => some 404 }

lemma entriesFor_path (p : String) (es : List TreeEntry) :
    ∀ e ∈ entriesFor p es, e.path = p := by
  intro e he
  have h := (List.mem_filter.mp he).2
  simpa using h

lemma entriesFor_append (p : String) (l₁ l₂ : List TreeEntry) :
    entriesFor p (l₁ ++ l₂) = entriesFor p l₁ ++ entriesFor p l₂ :=
  List.filter_append _ _

lemma entriesFor_filter_ne (entries : List TreeEntry) (f p : String) :
    entriesFor p (entries.filter (fun e => e.path != f))
      = if f = p then [] else entriesFor p entries := by
  unfold entriesFor
  rw [List.filter_comm]
  by_cases h : f = p
  · subst h
    rw [if_pos rfl]
    rw [List.filter_eq_nil_iff]
    intro e he
    have hp := entriesFor_path f entries e he
    simp [hp]
  · rw [if_neg h]
    apply List.filter_eq_self.mpr
    intro e he
    have hp := entriesFor_path p entries e he
    simp [hp]
    exact fun hpf => h hpf.symm

lemma entriesFor_upsert (entries : List TreeEntry) (f sha p : String) :
    entriesFor p (upsertEntry entries f sha)
      = if f = p then [⟨p, "100644", "blob", sha⟩] else entriesFor p entries := by
  unfold upsertEntry
  rw [entriesFor_append, entriesFor_filter_ne]
  by_cases h : f = p
  · subst h
    simp [entriesFor]
  · simp [entriesFor, h]

lemma processFiles_fst_entriesFor (env : Env) (l : List (Nat × String)) :
    ∀ (entries : List TreeEntry) (p : String),
      entriesFor p (processFiles env entries l).1
        = match lastSuccess env p l with
          | some sha => [⟨p, "100644", "blob", sha⟩]
          | none => entriesFor p entries := by
  induction l with
  | nil => intro entries p; simp [processFiles, lastSuccess]
  | cons q rest ih =>
    intro entries p
    obtain ⟨i, f⟩ := q
    cases hrf : env.readFile i f with
    | none =>
      have hba : blobAt env i f = none := by simp [blobAt, hrf]
      simp only [processFiles, lastSuccess, hrf]
      rw [ih]
      cases hls : lastSuccess env p rest with
      | some sha => simp
      | none => simp [hba]
    | some content =>
      cases hcb : env.createBlobResp i content with
      | none =>
        have hba : blobAt env i f = none := by simp [blobAt, hrf, hcb]
        simp only [processFiles, lastSuccess, hrf, hcb]
        rw [ih]
        cases hls : lastSuccess env p rest with
        | some sha => simp
        | none => simp [hba]
      | some pr =>
        obtain ⟨st, bsha⟩ := pr
        by_cases hst : st = 201
        · subst hst
          have hba : blobAt env i f = some bsha := by simp [blobAt, hrf, hcb]
          simp only [processFiles, lastSuccess, hrf, hcb, beq_self_eq_true, if_true]
          rw [ih]
          cases hls : lastSuccess env p rest with
          | some sha => simp
          | none =>
            rw [entriesFor_upsert]
            by_cases hfp : f = p
            · subst hfp; simp [hba]
            · simp [hfp]
        · have hst' : (st == 201) = false := by simp [hst]
          have hba : blobAt env i f = none := by simp [blobAt, hrf, hcb, hst]
          simp only [processFiles, lastSuccess, hrf, hcb, hst', Bool.false_eq_true, if_false]
          rw [ih]
          cases hls : lastSuccess env p rest with
          | some sha => simp
          | none => simp [hba]

lemma upsertEntry_path_nodup (entries : List TreeEntry) (f sha : String)
    (h : (entries.map TreeEntry.path).Nodup) :
    ((upsertEntry entries f sha).map TreeEntry.path).Nodup := by
  unfold upsertEntry
  rw [List.map_append]
  refine List.Nodup.append ?_ ?_ ?_
  · exact List.Nodup.sublist (List.Sublist.map _ (List.filter_sublist _)) h
  · simp
  · intro x hx hx'
    simp only [List.map_cons, List.map_nil, List.mem_singleton] at hx'
    subst hx'
    obtain ⟨e, he, hep⟩ := List.mem_map.mp hx
    have h2 := (List.mem_filter.mp he).2
    rw [hep] at h2
    simp at h2

lemma processFiles_path_nodup (env : Env) (l : List (Nat × String)) :
    ∀ entries : List TreeEntry, (entries.map TreeEntry.path).Nodup →
      (((processFiles env entries l).1).map TreeEntry.path).Nodup := by
  induction l with
  | nil => intro entries h; simpa [processFiles] using h
  | cons q rest ih =>
    intro entries h
    obtain ⟨i, f⟩ := q
    cases hrf : env.readFile i f with
    | none => simp only [processFiles, hrf]; exact ih entries h
    | some content =>
      cases hcb : env.createBlobResp i content with
      | none => simp only [processFiles, hrf, hcb]; exact ih entries h
      | some pr =>
        obtain ⟨st, bsha⟩ := pr
        by_cases hst : st = 201
        · subst hst
          simp only [processFiles, hrf, hcb, beq_self_eq_true, if_true]
          exact ih _ (upsertEntry_path_nodup entries f bsha h)
        · have hst' : (st == 201) = false := by simp [hst]
          simp only [processFiles, hrf, hcb, hst', Bool.false_eq_true, if_false]
          exact ih entries h

lemma baseEntries_path_nodup (items : List TreeEntry)
    (h : (items.map TreeEntry.path).Nodup) :
    ((baseEntries items).map TreeEntry.path).Nodup := by
  unfold baseEntries
  rw [List.map_map]
  have heq : ((items.filter (fun it => it.type == "blob")).map
      (TreeEntry.path ∘ fun it => (⟨it.path, it.mode, "blob", it.sha⟩ : TreeEntry)))
      = (items.filter (fun it => it.type == "blob")).map TreeEntry.path := rfl
  rw [heq]
  exact List.Nodup.sublist (List.Sublist.map _ (List.filter_sublist _)) h

lemma baseEntries_type_blob (items : List TreeEntry) :
    ∀ e ∈ baseEntries items, e.type = "blob" := by
  intro e he
  obtain ⟨it, _, heq⟩ := List.mem_map.mp he
  rw [← heq]

lemma upsertEntry_type_blob (entries : List TreeEntry) (f sha : String)
    (h : ∀ e ∈ entries, e.type = "blob") :
    ∀ e ∈ upsertEntry entries f sha, e.type = "blob" := by
  intro e he
  rcases List.mem_append.mp he with he' | he'
  · exact h e (List.mem_filter.mp he').1
  · rw [List.mem_singleton.mp he']

lemma processFiles_type_blob (env : Env) (l : List (Nat × String)) :
    ∀ entries : List TreeEntry, (∀ e ∈ entries, e.type = "blob") →
      ∀ e ∈ (processFiles env entries l).1, e.type = "blob" := by
  induction l with
  | nil => intro entries h; simpa [processFiles] using h
  | cons q rest ih =>
    intro entries h
    obtain ⟨i, f⟩ := q
    cases hrf : env.readFile i f with
    | none => simp only [processFiles, hrf]; exact ih entries h
    | some content =>
      cases hcb : env.createBlobResp i content with
      | none => simp only [processFiles, hrf, hcb]; exact ih entries h
      | some pr =>
        obtain ⟨st, bsha⟩ := pr
        by_cases hst : st = 201
        · subst hst
          simp only [processFiles, hrf, hcb, beq_self_eq_true, if_true]
          exact ih _ (upsertEntry_type_blob entries f bsha h)
        · have hst' : (st == 201) = false := by simp [hst]
          simp only [processFiles, hrf, hcb, hst', Bool.false_eq_true, if_false]
          exact ih entries h

lemma processFiles_events_postBlob (env : Env) (l : List (Nat × String)) :
    ∀ (entries : List TreeEntry), ∀ e ∈ (processFiles env entries l).2,
      ∃ c, e = Event.postBlob c := by
  induction l with
  | nil => intro entries e he; simp [processFiles] at he
  | cons q rest ih =>
    intro entries e he
    obtain ⟨i, f⟩ := q
    cases hrf : env.readFile i f with
    | none =>
      simp only [processFiles, hrf] at he
      exact ih entries e he
    | some content =>
      cases hcb : env.createBlobResp i content with
      | none =>
        simp only [processFiles, hrf, hcb, List.mem_cons] at he
        rcases he with he | he
        · exact ⟨content, he⟩
        · exact ih entries e he
      | some pr =>
        obtain ⟨st, bsha⟩ := pr
        by_cases hst : st = 201
        · subst hst
          simp only [processFiles, hrf, hcb, beq_self_eq_true, if_true,
            List.mem_cons] at he
          rcases he with he | he
          · exact ⟨content, he⟩
          · exact ih _ e he
        · have hst' : (st == 201) = false := by simp [hst]
          simp only [processFiles, hrf, hcb, hst', Bool.false_eq_true, if_false,
            List.mem_cons] at he
          rcases he with he | he
          · exact ⟨content, he⟩
          · exact ih entries e he

lemma processFiles_filter_readable (env : Env) (l : List (Nat × String)) :
    ∀ entries : List TreeEntry,
      processFiles env entries l
        = processFiles env entries (l.filter (fun q => (env.readFile q.1 q.2).isSome)) := by
  induction l with
  | nil => intro entries; rfl
  | cons q rest ih =>
    intro entries
    obtain ⟨i, f⟩ := q
    cases hrf : env.readFile i f with
    | none =>
      simp only [processFiles, hrf, List.filter_cons, Option.isSome_none,
        Bool.false_eq_true, if_false]
      exact ih entries
    | some content =>
      simp only [processFiles, hrf, List.filter_cons, Option.isSome_some, if_true]
      cases hcb : env.createBlobResp i content with
      | none => simp only [hcb]; rw [← ih entries]
      | some pr =>
        obtain ⟨st, bsha⟩ := pr
        simp only [hcb]
        by_cases hst : st = 201
        · subst hst
          simp only [beq_self_eq_true, if_true]
          rw [← ih (upsertEntry entries f bsha)]
        · have hst' : (st == 201) = false := by simp [hst]
          simp only [hst', Bool.false_eq_true, if_false]
          rw [← ih entries]

lemma lastIdx_mem (p : String) (l : List (Nat × String)) :
    ∀ i, lastIdx p l = some i → (i, p) ∈ l := by
  induction l with
  | nil => intro i h; simp [lastIdx] at h
  | cons q rest ih =>
    intro i h
    obtain ⟨j, f⟩ := q
    simp only [lastIdx] at h
    cases hr : lastIdx p rest with
    | some k =>
      simp only [hr] at h
      obtain rfl := Option.some_inj.mp h
      exact List.mem_cons_of_mem _ (ih _ hr)
    | none =>
      simp only [hr] at h
      by_cases hfp : f = p
      · rw [if_pos hfp] at h
        obtain rfl := Option.some_inj.mp h
        subst hfp
        exact List.mem_cons_self _ _
      · rw [if_neg hfp] at h
        exact absurd h (by simp)

lemma lastSuccess_none_of_lastIdx_none (env : Env) (p : String)
    (l : List (Nat × String)) (h : lastIdx p l = none) :
    lastSuccess env p l = none := by
  induction l with
  | nil => rfl
  | cons q rest ih =>
    obtain ⟨i, f⟩ := q
    simp only [lastIdx] at h
    simp only [lastSuccess]
    cases hr : lastIdx p rest with
    | some k => exact absurd h (by simp [hr])
    | none =>
      simp only [hr] at h
      rw [ih hr]
      by_cases hfp : f = p
      · rw [if_pos hfp] at h; exact absurd h (by simp)
      · rw [if_neg hfp]

lemma lastSuccess_of_lastIdx (env : Env) (p : String) (l : List (Nat × String)) :
    ∀ i sha, lastIdx p l = some i → blobAt env i p = some sha →
      lastSuccess env p l = some sha := by
  induction l with
  | nil => intro i sha h; simp [lastIdx] at h
  | cons q rest ih =>
    intro i sha h hba
    obtain ⟨j, f⟩ := q
    simp only [lastIdx] at h
    simp only [lastSuccess]
    cases hr : lastIdx p rest with
    | some k =>
      simp only [hr] at h
      obtain rfl := Option.some_inj.mp h
      rw [ih _ sha hr hba]
    | none =>
      simp only [hr] at h
      rw [lastSuccess_none_of_lastIdx_none env p rest hr]
      by_cases hfp : f = p
      · rw [if_pos hfp] at h
        obtain rfl := Option.some_inj.mp h
        rw [if_pos hfp, hfp]
        exact hba
      · rw [if_neg hfp] at h
        exact absurd h (by simp)

lemma lastSuccess_none_of_unreadable (env : Env) (p : String)
    (l : List (Nat × String))
    (h : ∀ q ∈ l, q.2 = p → env.readFile q.1 q.2 = none) :
    lastSuccess env p l = none := by
  induction l with
  | nil => rfl
  | cons q rest ih =>
    obtain ⟨i, f⟩ := q
    simp only [lastSuccess]
    rw [ih (fun q hq => h q (List.mem_cons_of_mem _ hq))]
    by_cases hfp : f = p
    · rw [if_pos hfp]
      have hrf := h (i, f) (List.mem_cons_self _ _) hfp
      simp [blobAt, hrf]
    · rw [if_neg hfp]

lemma createTreeWithChanges_trace (env : Env) (ts : String) (files : List String)
    (items : List TreeEntry) (hitems : env.getTreeItems ts = some items) :
    (createTreeWithChanges env ts files).2
      = Event.getTree ts :: ((processFiles env (baseEntries items) (withIdx 0 files)).2
          ++ [Event.postTree (submittedEntries env items files)]) := by
  unfold createTreeWithChanges submittedEntries
  rw [hitems]
  cases hpf : processFiles env (baseEntries items) (withIdx 0 files) with
  | mk entries evs =>
    cases hct : env.createTreeResp entries with
    | none => simp [hpf, hct]
    | some pr => obtain ⟨st, nts⟩ := pr; simp [hpf, hct]

lemma createTreeWithChanges_events (env : Env) (ts : String) (files : List String) :
    ∀ e ∈ (createTreeWithChanges env ts files).2,
      (∃ s, e = Event.getTree s) ∨ (∃ c, e = Event.postBlob c) ∨
        (∃ es, e = Event.postTree es) := by
  intro e he
  unfold createTreeWithChanges at he
  cases hgt : env.getTreeItems ts with
  | none =>
    simp only [hgt] at he
    simp at he
    subst he
    exact Or.inl ⟨ts, rfl⟩
  | some items =>
    simp only [hgt] at he
    cases hpf : processFiles env (baseEntries items) (withIdx 0 files) with
    | mk entries evs =>
      have hblob : ∀ e' ∈ evs, ∃ c, e' = Event.postBlob c := by
        intro e' he'
        refine processFiles_events_postBlob env (withIdx 0 files) (baseEntries items) e' ?_
        rw [hpf]
        exact he'
      simp only [hpf] at he
      cases hct : env.createTreeResp entries with
      | none =>
        simp only [hct] at he
        rcases List.mem_cons.mp he with rfl | he
        · exact Or.inl ⟨ts, rfl⟩
        rcases List.mem_append.mp he with he | he
        · exact Or.inr (Or.inl (hblob e he))
        · obtain rfl := List.mem_singleton.mp he
          exact Or.inr (Or.inr ⟨entries, rfl⟩)
      | some pr =>
        obtain ⟨st, nts⟩ := pr
        simp only [hct] at he
        rcases List.mem_cons.mp he with rfl | he
        · exact Or.inl ⟨ts, rfl⟩
        rcases List.mem_append.mp he with he | he
        · exact Or.inr (Or.inl (hblob e he))
        · obtain rfl := List.mem_singleton.mp he
          exact Or.inr (Or.inr ⟨entries, rfl⟩)

lemma createBranchM_events (env : Env) (b base : String) :
    ∀ e ∈ (createBranchM env b base).2,
      (∃ s, e = Event.getRef s) ∨ (∃ r s, e = Event.postRef r s) := by
  intro e he
  unfold createBranchM at he
  cases hr : env.resolveRef base with
  | none =>
    simp only [hr] at he
    simp at he
    subst he
    exact Or.inl ⟨base, rfl⟩
  | some sha =>
    cases hc : env.createRefResp ("refs/heads/" ++ b) sha with
    | none =>
      simp only [hr, hc] at he
      simp at he
      rcases he with he | he
      · exact Or.inl ⟨base, he⟩
      · exact Or.inr ⟨_, _, he⟩
    | some st =>
      simp only [hr, hc] at he
      simp at he
      rcases he with he | he
      · exact Or.inl ⟨base, he⟩
      · exact Or.inr ⟨_, _, he⟩

lemma createBranchM_true_shape (env : Env) (b base : String)
    (h : (createBranchM env b base).1 = true) :
    ∃ sha, env.resolveRef base = some sha ∧
      env.createRefResp ("refs/heads/" ++ b) sha = some 201 ∧
      (createBranchM env b base).2
        = [Event.getRef base, Event.postRef ("refs/heads/" ++ b) sha] := by
  cases hr : env.resolveRef base with
  | none => simp [createBranchM, hr] at h
  | some sha =>
    cases hc : env.createRefResp ("refs/heads/" ++ b) sha with
    | none => simp [createBranchM, hr, hc] at h
    | some st =>
      have hst : st = 201 := by simpa [createBranchM, hr, hc] using h
      subst hst
      exact ⟨sha, rfl, hc, by simp [createBranchM, hr, hc]⟩

lemma commitFilesM_cases (env : Env) (b m : String) (files : List String) :
    ((commitFilesM env b files m).1 = false ∧
      ((commitFilesM env b files m).2.all (fun e => !e.isPatchRef)) = true) ∨
    (∃ t p sha pre, env.createCommitResp m t p = some (201, sha) ∧
      (commitFilesM env b files m).2
        = pre ++ [Event.postCommit m t p, Event.patchRef b sha false] ∧
      (pre.all (fun e => !e.isPatchRef)) = true ∧
      ((commitFilesM env b files m).1 = true
        ↔ env.updateRefResp b sha false = some 200)) := by
  cases h1 : env.resolveRef b with
  | none =>
    left
    refine ⟨by simp [commitFilesM, h1], ?_⟩
    have ht : (commitFilesM env b files m).2 = [Event.getRef b] := by
      simp [commitFilesM, h1]
    rw [ht]
    rfl
  | some csha =>
    cases h2 : env.getCommitTree csha with
    | none =>
      left
      refine ⟨by simp [commitFilesM, h1, h2], ?_⟩
      have ht : (commitFilesM env b files m).2
          = [Event.getRef b, Event.getCommit csha] := by
        simp [commitFilesM, h1, h2]
      rw [ht]
      rfl
    | some tsha =>
      cases h3 : createTreeWithChanges env tsha files with
      | mk nt evs =>
        have hevs : evs.all (fun e => !e.isPatchRef) = true := by
          rw [List.all_eq_true]
          intro e he
          have he' : e ∈ (createTreeWithChanges env tsha files).2 := by
            rw [h3]; exact he
          rcases createTreeWithChanges_events env tsha files e he' with
            ⟨s, rfl⟩ | ⟨c, rfl⟩ | ⟨es, rfl⟩ <;> rfl
        cases nt with
        | none =>
          left
          refine ⟨by simp [commitFilesM, h1, h2, h3], ?_⟩
          have ht : (commitFilesM env b files m).2
              = Event.getRef b :: Event.getCommit csha :: evs := by
            simp [commitFilesM, h1, h2, h3]
          rw [ht, List.all_eq_true]
          intro e he
          rcases List.mem_cons.mp he with rfl | he
          · rfl
          rcases List.mem_cons.mp he with rfl | he
          · rfl
          exact List.all_eq_true.mp hevs e he
        | some nts =>
          cases h4 : env.createCommitResp m nts csha with
          | none =>
            left
            refine ⟨by simp [commitFilesM, h1, h2, h3, h4], ?_⟩
            have ht : (commitFilesM env b files m).2
                = Event.getRef b :: Event.getCommit csha ::
                    (evs ++ [Event.postCommit m nts csha]) := by
              simp [commitFilesM, h1, h2, h3, h4]
            rw [ht, List.all_eq_true]
            intro e he
            rcases List.mem_cons.mp he with rfl | he
            · rfl
            rcases List.mem_cons.mp he with rfl | he
            · rfl
            rcases List.mem_append.mp he with he | he
            · exact List.all_eq_true.mp hevs e he
            · obtain rfl := List.mem_singleton.mp he
              rfl
          | some pr =>
            obtain ⟨st, ncsha⟩ := pr
            by_cases h5 : st = 201
            · subst h5
              right
              refine ⟨nts, csha, ncsha,
                Event.getRef b :: Event.getCommit csha :: evs, h4, ?_, ?_, ?_⟩
              · cases h6 : env.updateRefResp b ncsha false with
                | none => simp [commitFilesM, h1, h2, h3, h4, h6]
                | some ust => simp [commitFilesM, h1, h2, h3, h4, h6]
              · rw [List.all_eq_true]
                intro e he
                rcases List.mem_cons.mp he with rfl | he
                · rfl
                rcases List.mem_cons.mp he with rfl | he
                · rfl
                exact List.all_eq_true.mp hevs e he
              · cases h6 : env.updateRefResp b ncsha false with
                | none => simp [commitFilesM, h1, h2, h3, h4, h6]
                | some ust => simp [commitFilesM, h1, h2, h3, h4, h6]
            · have h5' : (st == 201) = false := by simp [h5]
              left
              refine ⟨by simp [commitFilesM, h1, h2, h3, h4, h5', Bool.false_eq_true], ?_⟩
              have ht : (commitFilesM env b files m).2
                  = Event.getRef b :: Event.getCommit csha ::
                      (evs ++ [Event.postCommit m nts csha]) := by
                simp [commitFilesM, h1, h2, h3, h4, h5', Bool.false_eq_true]
              rw [ht, List.all_eq_true]
              intro e he
              rcases List.mem_cons.mp he with rfl | he
              · rfl
              rcases List.mem_cons.mp he with rfl | he
              · rfl
              rcases List.mem_append.mp he with he | he
              · exact List.all_eq_true.mp hevs e he
              · obtain rfl := List.mem_singleton.mp he
                rfl

lemma commitFilesM_events (env : Env) (b m : String) (files : List String) :
    ∀ e ∈ (commitFilesM env b files m).2,
      e.isPostPull = false ∧ e.isDeleteRef = false ∧ e.isPostRef = false := by
  intro e he
  cases h1 : env.resolveRef b with
  | none =>
    have ht : (commitFilesM env b files m).2 = [Event.getRef b] := by
      simp [commitFilesM, h1]
    rw [ht] at he
    obtain rfl := List.mem_singleton.mp he
    exact ⟨rfl, rfl, rfl⟩
  | some csha =>
    cases h2 : env.getCommitTree csha with
    | none =>
      have ht : (commitFilesM env b files m).2
          = [Event.getRef b, Event.getCommit csha] := by
        simp [commitFilesM, h1, h2]
      rw [ht] at he
      rcases List.mem_cons.mp he with rfl | he
      · exact ⟨rfl, rfl, rfl⟩
      obtain rfl := List.mem_singleton.mp he
      exact ⟨rfl, rfl, rfl⟩
    | some tsha =>
      cases h3 : createTreeWithChanges env tsha files with
      | mk nt evs =>
        have hevs : ∀ e' ∈ evs,
            Event.isPostPull e' = false ∧ Event.isDeleteRef e' = false ∧
              Event.isPostRef e' = false := by
          intro e' he'
          have he'' : e' ∈ (createTreeWithChanges env tsha files).2 := by
            rw [h3]; exact he'
          rcases createTreeWithChanges_events env tsha files e' he'' with
            ⟨s, rfl⟩ | ⟨c, rfl⟩ | ⟨es, rfl⟩ <;> exact ⟨rfl, rfl, rfl⟩
        cases nt with
        | none =>
          have ht : (commitFilesM env b files m).2
              = Event.getRef b :: Event.getCommit csha :: evs := by
            simp [commitFilesM, h1, h2, h3]
          rw [ht] at he
          rcases List.mem_cons.mp he with rfl | he
          · exact ⟨rfl, rfl, rfl⟩
          rcases List.mem_cons.mp he with rfl | he
          · exact ⟨rfl, rfl, rfl⟩
          exact hevs e he
        | some nts =>
          cases h4 : env.createCommitResp m nts csha with
          | none =>
            have ht : (commitFilesM env b files m).2
                = Event.getRef b :: Event.getCommit csha ::
                    (evs ++ [Event.postCommit m nts csha]) := by
              simp [commitFilesM, h1, h2, h3, h4]
            rw [ht] at he
            rcases List.mem_cons.mp he with rfl | he
            · exact ⟨rfl, rfl, rfl⟩
            rcases List.mem_cons.mp he with rfl | he
            · exact ⟨rfl, rfl, rfl⟩
            rcases List.mem_append.mp he with he | he
            · exact hevs e he
            obtain rfl := List.mem_singleton.mp he
            exact ⟨rfl, rfl, rfl⟩
          | some pr =>
            obtain ⟨st, ncsha⟩ := pr
            by_cases h5 : st = 201
            · subst h5
              have ht : (commitFilesM env b files m).2
                  = Event.getRef b :: Event.getCommit csha ::
                      (evs ++ [Event.postCommit m nts csha,
                        Event.patchRef b ncsha false]) := by
                cases h6 : env.updateRefResp b ncsha false with
                | none => simp [commitFilesM, h1, h2, h3, h4, h6]
                | some ust => simp [commitFilesM, h1, h2, h3, h4, h6]
              rw [ht] at he
              rcases List.mem_cons.mp he with rfl | he
              · exact ⟨rfl, rfl, rfl⟩
              rcases List.mem_cons.mp he with rfl | he
              · exact ⟨rfl, rfl, rfl⟩
              rcases List.mem_append.mp he with he | he
              · exact hevs e he
              rcases List.mem_cons.mp he with rfl | he
              · exact ⟨rfl, rfl, rfl⟩
              obtain rfl := List.mem_singleton.mp he
              exact ⟨rfl, rfl, rfl⟩
            · have h5' : (st == 201) = false := by simp [h5]
              have ht : (commitFilesM env b files m).2
                  = Event.getRef b :: Event.getCommit csha ::
                      (evs ++ [Event.postCommit m nts csha]) := by
                simp [commitFilesM, h1, h2, h3, h4, h5', Bool.false_eq_true]
              rw [ht] at he
              rcases List.mem_cons.mp he with rfl | he
              · exact ⟨rfl, rfl, rfl⟩
              rcases List.mem_cons.mp he with rfl | he
              · exact ⟨rfl, rfl, rfl⟩
              rcases List.mem_append.mp he with he | he
              · exact hevs e he
              obtain rfl := List.mem_singleton.mp he
              exact ⟨rfl, rfl, rfl⟩

/-- C1: the entry list the tree-builder submits to the tree-creation call
has exactly one entry per distinct path (given that the fetched base tree
does), and the entry of a supplied path carries the blob created at its
last occurrence whose read and blob creation succeeded — last-write-wins
on path collision. -/
theorem treeBuilder_last_write_wins (env : Env) (tsha p sha : String)
    (items : List TreeEntry) (files : List String) (i : Nat)
    (hitems : env.getTreeItems tsha = some items)
    (hnd : (items.map TreeEntry.path).Nodup)
    (hli : lastIdx p (withIdx 0 files) = some i)
    (hba : blobAt env i p = some sha) :
    Event.postTree (submittedEntries env items files)
        ∈ (createTreeWithChanges env tsha files).2 ∧
    ((submittedEntries env items files).map TreeEntry.path).Nodup ∧
    entriesFor p (submittedEntries env items files)
        = [⟨p, "100644", "blob", sha⟩] := by
  refine ⟨?_, ?_, ?_⟩
  · rw [createTreeWithChanges_trace env tsha files items hitems]
    simp
  · exact processFiles_path_nodup env (withIdx 0 files) (baseEntries items)
      (baseEntries_path_nodup items hnd)
  · unfold submittedEntries
    rw [processFiles_fst_entriesFor,
      lastSuccess_of_lastIdx env p (withIdx 0 files) i sha hli hba]

/-- Witness for C1: the path "a" is supplied twice, every step succeeds,
and the submitted entry for "a" carries the blob of the second
occurrence. -/
theorem treeBuilder_last_write_wins_witness :
    Event.postTree (submittedEntries envTree itemsW ["a", "a"])
        ∈ (createTreeWithChanges envTree "base" ["a", "a"]).2 ∧
    ((submittedEntries envTree itemsW ["a", "a"]).map TreeEntry.path).Nodup ∧
    entriesFor "a" (submittedEntries envTree itemsW ["a", "a"])
        = [⟨"a", "100644", "blob", "blob1"⟩] :=
  treeBuilder_last_write_wins envTree "base" "a" "blob1" itemsW ["a", "a"] 1
    rfl (by decide) (by decide) (by decide)

/-- C2: in every execution of `commit_files` (unconditionally): any issued
ref update carries the sha of a commit creation that returned 201, comes
directly after that commit POST, and ends the trace; a `true` result
implies a ref update for the newly created commit's sha was issued and
accepted with a 200; and when no commit creation for the given message is
answered 201, the run returns `false` without issuing any ref update —
so `commit_files` never succeeds with the branch head pointing at
anything other than the newly created commit. -/
theorem commitFiles_ref_update_only_after_commit (env : Env) (b m : String)
    (files : List String) :
    (∀ br sha frc, Event.patchRef br sha frc ∈ (commitFilesM env b files m).2 →
      frc = false ∧ br = b ∧
      ∃ t pa pre, env.createCommitResp m t pa = some (201, sha) ∧
        (commitFilesM env b files m).2
          = pre ++ [Event.postCommit m t pa, Event.patchRef b sha false] ∧
        (pre.all (fun e => !e.isPatchRef)) = true) ∧
    ((commitFilesM env b files m).1 = true →
      ∃ sha t pa, env.createCommitResp m t pa = some (201, sha) ∧
        Event.patchRef b sha false ∈ (commitFilesM env b files m).2 ∧
        env.updateRefResp b sha false = some 200) ∧
    ((∀ t pa sha, env.createCommitResp m t pa ≠ some (201, sha)) →
      (commitFilesM env b files m).1 = false ∧
      ∀ br sha frc, Event.patchRef br sha frc ∉ (commitFilesM env b files m).2) := by
  rcases commitFilesM_cases env b m files with
    ⟨hres, hall⟩ | ⟨t, pa, sha', pre, hcc, htr, hpre, hiff⟩
  · refine ⟨?_, ?_, ?_⟩
    · intro br sha frc hmem
      exfalso
      have := List.all_eq_true.mp hall _ hmem
      simp [Event.isPatchRef] at this
    · intro htrue
      rw [hres] at htrue
      exact absurd htrue (by simp)
    · intro _
      refine ⟨hres, ?_⟩
      intro br sha frc hmem
      have := List.all_eq_true.mp hall _ hmem
      simp [Event.isPatchRef] at this
  · refine ⟨?_, ?_, ?_⟩
    · intro br sha frc hmem
      rw [htr] at hmem
      rcases List.mem_append.mp hmem with hm | hm
      · exfalso
        have := List.all_eq_true.mp hpre _ hm
        simp [Event.isPatchRef] at this
      · rcases List.mem_cons.mp hm with heq | hm
        · exact absurd heq (by simp)
        · have heq := List.mem_singleton.mp hm
          rw [Event.patchRef.injEq] at heq
          obtain ⟨rfl, hsha, rfl⟩ := heq
          subst hsha
          exact ⟨rfl, rfl, t, pa, pre, hcc, htr, hpre⟩
    · intro htrue
      refine ⟨sha', t, pa, hcc, ?_, hiff.mp htrue⟩
      rw [htr]
      simp
    · intro hnone
      exact absurd hcc (hnone t pa sha')

/-- Witness for C2: under an oracle where every call succeeds, the run
returns `true`, and the theorem yields the issued, accepted ref update for
the sha of the 201 commit creation. -/
theorem commitFiles_ref_update_only_after_commit_witness :
    ∃ sha t pa, envAllOk.createCommitResp "m" t pa = some (201, sha) ∧
      Event.patchRef "b" sha false ∈ (commitFilesM envAllOk "b" ["a"] "m").2 ∧
      envAllOk.updateRefResp "b" sha false = some 200 :=
  (commitFiles_ref_update_only_after_commit envAllOk "b" "m" ["a"]).2.1 (by decide)

/-- C3: when branch creation succeeded but the commit step fails, the
combined workflow returns the commit-failure string, issues no
pull-request creation and no ref deletion (its trace is exactly the
branch-creation requests followed by the commit requests), and the
created branch's ref-creation request remains in the trace — the branch
is left in place with no rollback. -/
theorem workflow_commit_failure_no_pr (g : GitHubIntegration) (env : Env)
    (b m t body : String) (files : List String)
    (hb : (createBranchM env b "main").1 = true)
    (hc : (commitFilesM env b files m).1 = false) :
    (createCompletePrWorkflow (some g) env b files m t body).1
        = "❌ Failed to commit files to branch '" ++ b ++ "'" ∧
    (createCompletePrWorkflow (some g) env b files m t body).2
        = (createBranchM env b "main").2 ++ (commitFilesM env b files m).2 ∧
    ((createCompletePrWorkflow (some g) env b files m t body).2.all
        (fun e => !e.isPostPull && !e.isDeleteRef)) = true ∧
    ((createCompletePrWorkflow (some g) env b files m t body).2.any
        Event.isPostRef) = true := by
  obtain ⟨sha, hres, hcre, hevs1⟩ := createBranchM_true_shape env b "main" hb
  cases hB : createBranchM env b "main" with
  | mk bc evs1 =>
    rw [hB] at hb
    simp at hb
    subst hb
    cases hC : commitFilesM env b files m with
    | mk cc evs2 =>
      rw [hC] at hc
      simp at hc
      subst hc
      have ht : createCompletePrWorkflow (some g) env b files m t body
          = ("❌ Failed to commit files to branch '" ++ b ++ "'", evs1 ++ evs2) := by
        simp [createCompletePrWorkflow, hB, hC]
      have ht2 : (createCompletePrWorkflow (some g) env b files m t body).2
          = evs1 ++ evs2 := by rw [ht]
      have hevs1' : evs1 = [Event.getRef "main",
          Event.postRef ("refs/heads/" ++ b) sha] := by
        rw [hB] at hevs1
        exact hevs1
      refine ⟨by rw [ht], by rw [ht2], ?_, ?_⟩
      · rw [ht2, List.all_append]
        have ha1 : evs1.all (fun e => !e.isPostPull && !e.isDeleteRef) = true := by
          rw [List.all_eq_true]
          intro e he
          rcases createBranchM_events env b "main" e (by rw [hB]; exact he) with
            ⟨s, rfl⟩ | ⟨r, s, rfl⟩ <;> rfl
        have ha2 : evs2.all (fun e => !e.isPostPull && !e.isDeleteRef) = true := by
          rw [List.all_eq_true]
          intro e he
          obtain ⟨hp1, hp2, _⟩ :=
            commitFilesM_events env b m files e (by rw [hC]; exact he)
          simp [hp1, hp2]
        rw [ha1, ha2]
        rfl
      · rw [ht2, hevs1']
        simp [Event.isPostRef]

/-- Witness for C3: "main" resolves and ref creation succeeds, while the
commit step fails because the new branch's head cannot be resolved. -/
theorem workflow_commit_failure_no_pr_witness :
    (createCompletePrWorkflow (some integW) envBranchOnly "feature" [] "m" "t" "body").1
        = "❌ Failed to commit files to branch '" ++ "feature" ++ "'" ∧
    (createCompletePrWorkflow (some integW) envBranchOnly "feature" [] "m" "t" "body").2
        = (createBranchM envBranchOnly "feature" "main").2
            ++ (commitFilesM envBranchOnly "feature" [] "m").2 ∧
    ((createCompletePrWorkflow (some integW) envBranchOnly "feature" [] "m" "t" "body").2.all
        (fun e => !e.isPostPull && !e.isDeleteRef)) = true ∧
    ((createCompletePrWorkflow (some integW) envBranchOnly "feature" [] "m" "t" "body").2.any
        Event.isPostRef) = true :=
  workflow_commit_failure_no_pr integW envBranchOnly "feature" "m" "t" "body" []
    (by decide) (by decide)

/-- C4 counterexample: `validate_files_exist` is a publicly exposed tool,
yet with no integration configured it does not return the "not configured"
result — it reports local file existence (the function never consults the
integration object at all). -/
theorem validateFiles_ignores_missing_integration :
    (validateFilesExistTool envBase ["main.py"]).1 ≠ notConfiguredMsg := by
  decide

/-- C4 as amended: every publicly exposed operation that uses the GitHub
integration short-circuits to the "not configured" message with no network
request when the integration is absent; `validate_files_exist` instead
answers from local file existence for every input, and it also issues no
network request. -/
theorem tools_shortcircuit_when_not_configured (env : Env) (b base m t body : String)
    (files : List String) :
    createBranchTool none env b base = (notConfiguredMsg, []) ∧
    commitFilesTool none env b files m = (notConfiguredMsg, []) ∧
    createPullRequestTool none env b t body = (notConfiguredMsg, []) ∧
    createCompletePrWorkflow none env b files m t body = (notConfiguredMsg, []) ∧
    listBranchesTool none env = (notConfiguredMsg, []) ∧
    getRepositoryStatusTool none env = (notConfiguredMsg, []) ∧
    getCurrentChangesTool none env = (notConfiguredMsg, []) ∧
    (validateFilesExistTool env files).2 = [] :=
  ⟨rfl, rfl, rfl, rfl, rfl, rfl, rfl, rfl⟩

/-- C5 (code bug): on a porcelain listing whose first line carries a
leading status space (a worktree-modified file, here " M foo"), the global
`stdout.strip()` has already eaten that space, so `line[3:]` yields the
truncated name "oo" and the actual file "foo" is missing from the
changed-file list. -/
theorem changeDetector_truncates_first_line :
    changedFilesOf " M foo\n" = ["oo"] ∧ "foo" ∉ changedFilesOf " M foo\n" := by
  decide

/-- C6: `create_branch` converts every failure into `false`: a failing
base-branch resolution (non-2xx raised by `raise_for_status`, network
error, missing field), a network error on the ref creation, and any
non-2xx creation status all yield `false` (the code accepts only 201). -/
theorem createBranch_converts_failures_to_false (env : Env) (b base : String) :
    (env.resolveRef base = none →
      createBranchM env b base = (false, [Event.getRef base])) ∧
    (∀ sha, env.resolveRef base = some sha →
      env.createRefResp ("refs/heads/" ++ b) sha = none →
      (createBranchM env b base).1 = false) ∧
    (∀ sha st, env.resolveRef base = some sha →
      env.createRefResp ("refs/heads/" ++ b) sha = some st →
      ¬(200 ≤ st ∧ st ≤ 299) → (createBranchM env b base).1 = false) := by
  refine ⟨?_, ?_, ?_⟩
  · intro h
    simp [createBranchM, h]
  · intro sha h1 h2
    simp [createBranchM, h1, h2]
  · intro sha st h1 h2 h3
    have hne : st ≠ 201 := by omega
    have h4 : (st == 201) = false := beq_eq_false_iff_ne.mpr hne
    simp [createBranchM, h1, h2, h4]

/-- Witness for C6: a 404 on the ref-creation call makes `create_branch`
return `false`. -/
theorem createBranch_converts_failures_to_false_witness :
    (createBranchM envRefCreate404 "feature" "main").1 = false :=
  (createBranch_converts_failures_to_false envRefCreate404 "feature" "main").2.2
    "abc123" 404 rfl rfl (by omega)

/-- C7: every ref update `commit_files` issues carries force = false; the
whole run issues exactly one ref update, and when the remote answers it
with anything but a 200 (as for a rejected non-fast-forward), the run
returns `false` without a further update. -/
theorem commitFiles_never_forces_single_update (env : Env) (b m br sha : String)
    (files : List String) (frc : Bool)
    (hmem : Event.patchRef br sha frc ∈ (commitFilesM env b files m).2) :
    frc = false ∧
    (commitFilesM env b files m).2.countP Event.isPatchRef = 1 ∧
    (env.updateRefResp b sha false ≠ some 200 →
      (commitFilesM env b files m).1 = false) := by
  rcases commitFilesM_cases env b m files with
    ⟨hres, hall⟩ | ⟨t, pa, sha', pre, hcc, htr, hpre, hiff⟩
  · exfalso
    have := List.all_eq_true.mp hall _ hmem
    simp [Event.isPatchRef] at this
  · have hpre0 : pre.countP Event.isPatchRef = 0 := by
      rw [List.countP_eq_zero]
      intro e he
      have := List.all_eq_true.mp hpre e he
      simpa using this
    rw [htr] at hmem
    rcases List.mem_append.mp hmem with hm | hm
    · exfalso
      have := List.all_eq_true.mp hpre _ hm
      simp [Event.isPatchRef] at this
    · rcases List.mem_cons.mp hm with heq | hm
      · exact absurd heq (by simp)
      · have heq := List.mem_singleton.mp hm
        rw [Event.patchRef.injEq] at heq
        obtain ⟨rfl, hsha, rfl⟩ := heq
        subst hsha
        refine ⟨rfl, ?_, ?_⟩
        · rw [htr, List.countP_append, hpre0]
          simp [List.countP_cons, Event.isPatchRef]
        · intro hne
          rw [← Bool.not_eq_true]
          intro hcm
          exact hne (hiff.mp hcm)

/-- Witness for C7: the remote rejects the one issued (non-forced) ref
update with a 422 and the run returns `false`. -/
theorem commitFiles_never_forces_single_update_witness :
    false = false ∧
    (commitFilesM envRefReject "b" ["a"] "m").2.countP Event.isPatchRef = 1 ∧
    (envRefReject.updateRefResp "b" "nc" false ≠ some 200 →
      (commitFilesM envRefReject "b" ["a"] "m").1 = false) :=
  commitFiles_never_forces_single_update envRefReject "b" "m" "b" "nc" ["a"] false
    (by decide)

/-- C8: the per-file loop is unchanged by dropping the unreadable supplied
paths (same entry list and same issued blob requests as processing the
readable ones alone, at their original iteration positions), and a path
all of whose occurrences are unreadable keeps exactly the entries the base
tree had for it. -/
theorem treeBuilder_skips_unreadable (env : Env) (items : List TreeEntry)
    (files : List String) (p : String)
    (hfail : ∀ q ∈ withIdx 0 files, q.2 = p → env.readFile q.1 q.2 = none) :
    processFiles env (baseEntries items) (withIdx 0 files)
      = processFiles env (baseEntries items)
          ((withIdx 0 files).filter (fun q => (env.readFile q.1 q.2).isSome)) ∧
    entriesFor p (submittedEntries env items files)
      = entriesFor p (baseEntries items) := by
  refine ⟨processFiles_filter_readable env (withIdx 0 files) (baseEntries items), ?_⟩
  unfold submittedEntries
  rw [processFiles_fst_entriesFor,
    lastSuccess_none_of_unreadable env p (withIdx 0 files) hfail]

/-- Witness for C8: the single supplied path "a" is unreadable, so the
build reduces to the readable files (none) and the base tree's entries are
untouched. -/
theorem treeBuilder_skips_unreadable_witness :
    processFiles envBase (baseEntries itemsW) (withIdx 0 ["a"])
      = processFiles envBase (baseEntries itemsW)
          ((withIdx 0 ["a"]).filter (fun q => (envBase.readFile q.1 q.2).isSome)) ∧
    entriesFor "a" (submittedEntries envBase itemsW ["a"])
      = entriesFor "a" (baseEntries itemsW) :=
  treeBuilder_skips_unreadable envBase itemsW ["a"] "a" (by decide)

/-- C9: every entry the tree-builder submits has type "blob", so a
non-blob item of the recursively fetched base tree (a directory sub-tree
or commit entry) never appears in the submitted entry set — the new tree
is a flat list of path-qualified file blobs. -/
theorem treeBuilder_keeps_only_blobs (env : Env) (items : List TreeEntry)
    (files : List String) (it : TreeEntry)
    (_hit : it ∈ items) (hty : it.type ≠ "blob") :
    ((submittedEntries env items files).all (fun e => e.type == "blob")) = true ∧
    (⟨it.path, it.mode, it.type, it.sha⟩ : TreeEntry) ∉ submittedEntries env items files := by
  have hall : ∀ e ∈ submittedEntries env items files, e.type = "blob" :=
    processFiles_type_blob env (withIdx 0 files) (baseEntries items)
      (baseEntries_type_blob items)
  refine ⟨?_, ?_⟩
  · rw [List.all_eq_true]
    intro e he
    simpa using hall e he
  · intro hmem
    exact hty (hall _ hmem)

/-- Witness for C9: the base tree's "docs" sub-tree item is dropped. -/
theorem treeBuilder_keeps_only_blobs_witness :
    ((submittedEntries envTree itemsW ["a"]).all (fun e => e.type == "blob")) = true ∧
    (⟨"docs", "040000", "tree", "shaT"⟩ : TreeEntry) ∉ submittedEntries envTree itemsW ["a"] :=
  treeBuilder_keeps_only_blobs envTree itemsW ["a"] ⟨"docs", "040000", "tree", "shaT"⟩
    (by decide) (by decide)

/-- C10: whenever the underlying commit succeeds, the `commit_files` tool
reports "Successfully committed N files" with N the length of the supplied
list — and there is an input (one unreadable supplied file over a
non-empty base tree, every remote call accepted) on which the run succeeds
while the submitted tree equals the base tree's carried-over entries, so
N = 1 but zero paths changed. -/
theorem commitFilesTool_reports_list_length :
    (∀ (g : GitHubIntegration) (env : Env) (b m : String) (files : List String),
      (commitFilesM env b files m).1 = true →
      (commitFilesTool (some g) env b files m).1
        = "✅ Successfully committed " ++ toString files.length
            ++ " files to branch '" ++ b ++ "'") ∧
    ((commitFilesM envAllOk "b" ["a"] "m").1 = true ∧
      submittedEntries envAllOk itemsW ["a"] = baseEntries itemsW ∧
      envAllOk.getTreeItems "tree0" = some itemsW ∧
      (["a"] : List String).length = 1) := by
  constructor
  · intro g env b m files h
    cases hcf : commitFilesM env b files m with
    | mk res evs =>
      rw [hcf] at h
      simp at h
      subst h
      simp [commitFilesTool, hcf]
  · exact ⟨by decide, by decide, rfl, rfl⟩

/-- Witness for C10: the success message counts the one supplied
(unreadable, hence skipped) file. -/
theorem commitFilesTool_reports_list_length_witness :
    (commitFilesTool (some integW) envAllOk "b" ["a"] "m").1
      = "✅ Successfully committed " ++ toString (["a"] : List String).length
          ++ " files to branch '" ++ "b" ++ "'" :=
  commitFilesTool_reports_list_length.1 integW envAllOk "b" "m" ["a"] (by decide)
